import Mathlib

/-!
Verification of the trend-matrix engine (`Trend.CalculateTrends`), the run-continuity
resolver (`ExtendPeriod`), the fragment stitcher (`ConcatModels`) and the regional
box averaging (`Gradient.CalculateGradient`) of the FP climate-analysis repository.

Modelling choices:
* Timestamps are encoded as integers `year * 10000 + month * 100 + day`, so that the
  `np.datetime64` (and `cftime`) comparisons of the source become integer comparisons.
* A gradient time series is a list of `(timestamp, value)` pairs; values are rationals.
  A possibly-NaN series carries `Option` values, `none` standing for NaN; `np.polyfit`
  raises `LinAlgError` on NaN input, which the embedding models as `Except.error`.
* The `try`/`except` around the whole trend loop in `Trend.CalculateTrends` means the
  first failing fit aborts the loop and the dict keeps only previously inserted cells;
  `CalculateTrends` reproduces this by returning the prefix computed before the failure.
-/

/-- Timestamp encoding of a calendar date, ordered like `np.datetime64`. -/
def mkDate (y m d : Int) : Int := y * 10000 + m * 100 + d

/-- Sum of `(x0 + j) * ys[j]` over the positions `j` of `ys`:
the `x`-against-`y` moment entering the least-squares slope. -/
def xySum (x0 : ℚ) (ys : List ℚ) : ℚ :=
  (List.zipWith (fun x y => x * y) ((List.range ys.length).map (fun (j : ℕ) => x0 + (j : ℚ))) ys).sum

/-- Sum of the regression abscissas `x0, x0+1, ..., x0+n-1`. -/
def xSum (x0 : ℚ) (n : ℕ) : ℚ := ((List.range n).map (fun (j : ℕ) => x0 + (j : ℚ))).sum

/-- Sum of squares of the regression abscissas. -/
def xxSum (x0 : ℚ) (n : ℕ) : ℚ := ((List.range n).map (fun (j : ℕ) => (x0 + (j : ℚ)) ^ 2)).sum

/-- Numerator `n·Σxy − Σx·Σy` of the ordinary-least-squares slope. -/
def olsNum (x0 : ℚ) (ys : List ℚ) : ℚ :=
  (ys.length : ℚ) * xySum x0 ys - xSum x0 ys.length * ys.sum

/-- Denominator `n·Σx² − (Σx)²` of the ordinary-least-squares slope. -/
def olsDen (x0 : ℚ) (ys : List ℚ) : ℚ :=
  (ys.length : ℚ) * xxSum x0 ys.length - xSum x0 ys.length ^ 2

/-- Ordinary-least-squares slope of `ys` against the abscissas `x0, x0+1, ...`;
this is the first coefficient returned by `np.polyfit(x, ys, 1)` for that `x`. -/
def olsSlope (x0 : ℚ) (ys : List ℚ) : ℚ := olsNum x0 ys / olsDen x0 ys

/-- The subsequence of gradient values whose timestamps lie in
`[start_year-01-01, end_year-12-31]`, as selected by `gradient.sel(...)`. -/
def windowVals (g : List (Int × ℚ)) (s e : Int) : List ℚ :=
  (g.filter (fun p => decide (mkDate s 1 1 ≤ p.1) && decide (p.1 ≤ mkDate e 12 31))).map Prod.snd

/-- NaN-aware window selection (`none` = NaN sample). -/
def windowValsN (g : List (Int × Option ℚ)) (s e : Int) : List (Option ℚ) :=
  (g.filter (fun p => decide (mkDate s 1 1 ≤ p.1) && decide (p.1 ≤ mkDate e 12 31))).map Prod.snd

/-- Collect a list of optional values; `none` as soon as one entry is `none`. -/
def seqOpt : List (Option ℚ) → Option (List ℚ)
  | [] => some []
  | none :: _ => none
  | some x :: t => (seqOpt t).map (fun l => x :: l)

/-- One cell of the trend matrix on a NaN-free series, following the guards of
`Trend.CalculateTrends`: missing for `start_year >= end_year`, missing for windows
shorter than `minTrend`, missing for `<= 12` selected samples, otherwise
`slope * trendLength` with `trendLength = 120`. -/
def trendCell (g : List (Int × ℚ)) (minTrend : ℕ) (s e : Int) : Option ℚ :=
  if e ≤ s then none
  else if e - s < (minTrend : Int) then none
  else if 12 < (windowVals g s e).length then some (olsSlope 0 (windowVals g s e) * 120)
  else none

/-- One cell on a possibly-NaN series: `np.polyfit` fails (`LinAlgError`) when the
selected window contains a NaN, modelled as `Except.error ()`. -/
def trendCellE (g : List (Int × Option ℚ)) (minTrend : ℕ) (s e : Int) :
    Except Unit (Option ℚ) :=
  if e ≤ s then Except.ok none
  else if e - s < (minTrend : Int) then Except.ok none
  else if 12 < (windowValsN g s e).length then
    match seqOpt (windowValsN g s e) with
    | some ys => Except.ok (some (olsSlope 0 ys * 120))
    | none => Except.error ()
  else Except.ok none

/-- The `(start_year, end_year)` pairs visited by the two nested loops, in order:
`start_year` in `range(1870, 2025 - minTrend)`, `end_year` in
`range(1870 + minTrend, 2025)`. -/
def cellKeys (minTrend : ℕ) : List (Int × Int) :=
  (List.range (155 - minTrend)).flatMap (fun (i : ℕ) =>
    (List.range (155 - minTrend)).map (fun (j : ℕ) =>
      ((1870 : Int) + (i : Int), (1870 : Int) + (minTrend : Int) + (j : Int))))

/-- The trend dict built cell by cell; the `try`/`except` wrapping the whole loop
means the first failing fit stops the loop, keeping only the cells already inserted. -/
def calcTrendsAux (g : List (Int × Option ℚ)) (minTrend : ℕ) :
    List (Int × Int) → List ((Int × Int) × Option ℚ)
  | [] => []
  | k :: ks =>
    match trendCellE g minTrend k.1 k.2 with
    | Except.ok v => (k, v) :: calcTrendsAux g minTrend ks
    | Except.error _ => []

/-- `Trend.CalculateTrends` on a possibly-NaN gradient series: the resulting
association list is `self.trends` in insertion order. -/
def CalculateTrends (g : List (Int × Option ℚ)) (minTrend : ℕ) :
    List ((Int × Int) × Option ℚ) :=
  calcTrendsAux g minTrend (cellKeys minTrend)

/-- `Trend.CalculateTrends` on a NaN-free gradient series. -/
def CalculateTrendsQ (g : List (Int × ℚ)) (minTrend : ℕ) :
    List ((Int × Int) × Option ℚ) :=
  CalculateTrends (g.map (fun p => (p.1, some p.2))) minTrend

/-- Whether a cell evaluation succeeded. -/
def exceptOk : Except Unit (Option ℚ) → Bool
  | Except.ok _ => true
  | Except.error _ => false

/-- The value of a successful cell evaluation. -/
def exceptVal : Except Unit (Option ℚ) → Option ℚ
  | Except.ok v => v
  | Except.error _ => none

/-! ### ConcatModels: fragment stitching with coverage validation -/

/-- `ds.sortby('time')`: stable sort of the samples by timestamp. -/
def sortByTime (ds : List (Int × ℚ)) : List (Int × ℚ) :=
  List.insertionSort (fun p q => p.1 ≤ q.1) ds

/-- `ConcatModels`: concatenate the fragments along time in the given order, sort by
time, then require the first timestamp at or before 1850-01-31 and the last at or
after 2014-12-01; otherwise raise `ValueError`. -/
def ConcatModels (fragments : List (List (Int × ℚ))) : Except String (List (Int × ℚ)) :=
  match (sortByTime fragments.flatten).head?, (sortByTime fragments.flatten).getLast? with
  | some f, some l =>
    if f.1 ≤ mkDate 1850 1 31 ∧ mkDate 2014 12 1 ≤ l.1 then
      Except.ok (sortByTime fragments.flatten)
    else Except.error "Concatenated models do not span full period"
  | _, _ => Except.error "no data"

/-! ### ExtendPeriod: the run-continuity resolver -/

/-- A gridded dataset as the resolver sees it: its time axis and the attributes
`source_id` and `variant_label`. -/
structure DataSet where
  times : List Int
  sourceId : String
  variantLabel : String
deriving DecidableEq

/-- `i[:i.index('_')]`: the leading sourceID token of a flattened key; `none` models
the `ValueError` that `str.index` raises when the key has no underscore. -/
def leadToken (s : String) : Option String :=
  if '_' ∈ s.data then some (String.mk (s.data.takeWhile (fun c => c ≠ '_'))) else none

/-- Python dict assignment `d[k] = v` on an association list: overwrite in place if
the key exists, else append. -/
def insertFlat (m : List (String × List DataSet)) (k : String) (v : List DataSet) :
    List (String × List DataSet) :=
  if m.any (fun kv => kv.1 == k) then
    m.map (fun kv => if kv.1 == k then (k, v) else kv)
  else m ++ [(k, v)]

/-- One step of the registry-flattening loop of `ExtendPeriod`: a key with several
candidates is split into synthetic single-candidate keys `key_0, key_1, ...`
(`counter` enumerating the candidates); a single-candidate key is kept as is. -/
def flattenEntry (acc : List (String × List DataSet)) (kv : String × List DataSet) :
    List (String × List DataSet) :=
  if 1 < kv.2.length then
    (kv.2.zip (List.range kv.2.length)).foldl
      (fun acc2 p => insertFlat acc2 (kv.1 ++ "_" ++ toString p.2) [p.1]) acc
  else insertFlat acc kv.1 kv.2

/-- The registry-flattening loop of `ExtendPeriod`. -/
def flattenRegistry (registry : List (String × List DataSet)) :
    List (String × List DataSet) :=
  registry.foldl flattenEntry []

/-- Evaluate `f` on each element, failing as soon as `f` fails (the Python loop that
computes every key's leading token raises on the first bad key). -/
def mapOpt (f : α → Option β) : List α → Option (List β)
  | [] => some []
  | a :: t => (f a).bind (fun b => (mapOpt f t).map (fun bs => b :: bs))

/-- The randomized fallback of `ExtendPeriod`: flatten the registry, keep the indices
whose leading sourceID token equals the historical run's `source_id`, pick the
index drawn by `random.choice` (modelled by the oracle `r`: the draw is
`indicesMatch[r]`), and look the chosen key up in the flattened registry.
Returns the chosen key and its candidate list. -/
def fallbackSelect (hist : DataSet) (registry : List (String × List DataSet))
    (r : ℕ) : Option (String × List DataSet) :=
  (mapOpt (fun kv => leadToken kv.1) (flattenRegistry registry)).bind (fun sources =>
    let mask := sources.map (fun sid => sid == hist.sourceId)
    let indicesMatch :=
      (((List.range (flattenRegistry registry).length).zip mask).filter
        (fun p => p.2)).map Prod.fst
    (indicesMatch.get? r).bind (fun i =>
      ((flattenRegistry registry).get? i).bind (fun kv =>
        (List.lookup kv.1 (flattenRegistry registry)).map (fun cands => (kv.1, cands)))))

/-- `ExtendPeriod`: if the historical run's lineage key is a registry key, concatenate
with the first candidate stored under it; otherwise concatenate with the candidate
chosen by the randomized source-matching fallback. No sorting is applied. -/
def ExtendPeriod (key : String) (hist : DataSet)
    (registry : List (String × List DataSet)) (r : ℕ) : Option (List Int) :=
  match List.lookup key registry with
  | some candidates => candidates.head?.map (fun ds => hist.times ++ ds.times)
  | none =>
    (fallbackSelect hist registry r).bind (fun kc =>
      kc.2.head?.map (fun ds => hist.times ++ ds.times))

/-! ### Regional box averaging (Gradient.CalculateGradient) -/

/-- `np.cos(np.radians(lat))`: the latitude weights of a box. -/
noncomputable def boxWeights (lats : List ℝ) : List ℝ :=
  lats.map (fun φ => Real.cos (φ * Real.pi / 180))

/-- `box.weighted(weights).mean(('lat','lon'))` at one time step: the grid holds one
row of longitude values per latitude; the weighted mean is
`Σ_{i,j} w_i·x_{i,j} / Σ_{i,j} w_i`. -/
noncomputable def weightedBoxMean (lats : List ℝ) (grid : List (List ℝ)) : ℝ :=
  (List.zipWith (fun w row => (row.map (fun x => w * x)).sum) (boxWeights lats) grid).sum /
  (List.zipWith (fun w row => w * (row.length : ℝ)) (boxWeights lats) grid).sum

/-- `Gradient.CalculateGradient` at one time step: west-box weighted mean minus
east-box weighted mean. -/
noncomputable def CalculateGradient (latsW : List ℝ) (gridW : List (List ℝ))
    (latsE : List ℝ) (gridE : List (List ℝ)) : ℝ :=
  weightedBoxMean latsW gridW - weightedBoxMean latsE gridE

/-! ### Concrete inputs used by witnesses and counterexamples -/

/-- A synthetic linear gradient series `y = 0.01·i`: 13 consecutive samples in 1900. -/
def gLin : List (Int × ℚ) :=
  (List.range 13).map (fun (j : ℕ) => (mkDate 1900 1 1 + (j : Int), (1 / 100 : ℚ) * (j : ℚ)))

/-- The same series with a NaN sample dated 1870-06-15 prepended. -/
def gNaN : List (Int × Option ℚ) :=
  (mkDate 1870 6 15, none) :: gLin.map (fun p => (p.1, some p.2))

/-- Historical run used in resolver witnesses. -/
def histW : DataSet := ⟨[20120116, 20140116], "ACC", "r1"⟩

/-- Registry with an exact lineage-key match for `histW`. -/
def regExact : List (String × List DataSet) :=
  [("ACC_r1", [⟨[20150116, 20170116], "ACC", "r9"⟩, ⟨[0], "ACC", "r8"⟩])]

/-- Registry without an exact match but with a source-matching candidate. -/
def regFallback : List (String × List DataSet) :=
  [("BCC_r1", [⟨[7], "BCC", "r1"⟩]), ("ACC_r2", [⟨[20150116, 20170116], "ACC", "r2"⟩])]

/-- Historical run overlapping its scenario continuation in time. -/
def histOverlap : DataSet := ⟨[20140116, 20150116], "ACC", "r1"⟩

/-! ### Closed forms for the regression sums -/

theorem xSum_closed (x0 : ℚ) (n : ℕ) :
    xSum x0 n = n * x0 + n * (n - 1) / 2 := by
  induction n with
  | zero => simp [xSum]
  | succ n ih =>
    rw [xSum, List.range_succ, List.map_append, List.sum_append]
    rw [xSum] at ih
    simp only [List.map_cons, List.map_nil, List.sum_cons, List.sum_nil]
    rw [ih]
    push_cast
    ring

theorem xxSum_closed (x0 : ℚ) (n : ℕ) :
    xxSum x0 n = n * x0 ^ 2 + x0 * n * (n - 1) + n * (n - 1) * (2 * n - 1) / 6 := by
  induction n with
  | zero => simp [xxSum]
  | succ n ih =>
    rw [xxSum, List.range_succ, List.map_append, List.sum_append]
    rw [xxSum] at ih
    simp only [List.map_cons, List.map_nil, List.sum_cons, List.sum_nil]
    rw [ih]
    push_cast
    ring

theorem xySum_nil (x0 : ℚ) : xySum x0 [] = 0 := by
  simp [xySum]

theorem xySum_cons (x0 y : ℚ) (t : List ℚ) :
    xySum x0 (y :: t) = x0 * y + xySum (x0 + 1) t := by
  have hmap : ∀ m : ℕ, ((List.range m).map Nat.succ).map (fun (j : ℕ) => x0 + (j : ℚ)) =
      (List.range m).map (fun (j : ℕ) => (x0 + 1) + (j : ℚ)) := by
    intro m
    rw [List.map_map]
    refine List.map_congr_left ?_
    intro a _
    simp only [Function.comp_apply]
    push_cast
    ring
  rw [xySum, xySum, List.length_cons, List.range_succ_eq_map, List.map_cons, hmap]
  simp only [List.zipWith_cons_cons, List.sum_cons]
  ring_nf

theorem xySum_shift (x0 : ℚ) (ys : List ℚ) :
    xySum x0 ys = x0 * ys.sum + xySum 0 ys := by
  induction ys generalizing x0 with
  | nil => simp [xySum_nil]
  | cons y t ih =>
    rw [xySum_cons, xySum_cons, List.sum_cons, ih (x0 + 1), zero_add, ih 1]
    ring

theorem xySum_affine (a d : ℚ) : ∀ (n : ℕ) (x0 : ℚ),
    xySum x0 ((List.range n).map (fun (j : ℕ) => a + d * (j : ℚ))) =
      n * a * x0 + (d * x0 + a) * (n * (n - 1) / 2) + d * (n * (n - 1) * (2 * n - 1) / 6) := by
  intro n
  induction n generalizing a with
  | zero => intro x0; simp [xySum_nil]
  | succ n ih =>
    intro x0
    have hlist : (List.range (n + 1)).map (fun (j : ℕ) => a + d * (j : ℚ)) =
        (a + d * ((0 : ℕ) : ℚ)) :: (List.range n).map (fun (j : ℕ) => (a + d) + d * (j : ℚ)) := by
      rw [List.range_succ_eq_map, List.map_cons, List.map_map]
      refine congrArg _ (List.map_congr_left ?_)
      intro b _
      simp only [Function.comp_apply]
      push_cast
      ring
    rw [hlist, xySum_cons, ih (a + d) (x0 + 1)]
    push_cast
    ring

theorem sum_affine (a d : ℚ) (n : ℕ) :
    ((List.range n).map (fun (j : ℕ) => a + d * (j : ℚ))).sum = n * a + d * (n * (n - 1) / 2) := by
  induction n with
  | zero => simp
  | succ n ih =>
    rw [List.range_succ, List.map_append, List.sum_append]
    simp only [List.map_cons, List.map_nil, List.sum_cons, List.sum_nil]
    rw [ih]
    push_cast
    ring

/-- Translation invariance of the numerator of the OLS slope. -/
theorem olsNum_shift (x0 : ℚ) (ys : List ℚ) : olsNum x0 ys = olsNum 0 ys := by
  rw [olsNum, olsNum, xySum_shift, xSum_closed, xSum_closed]
  ring

/-- Translation invariance of the denominator of the OLS slope. -/
theorem olsDen_shift (x0 : ℚ) : olsDen x0 = olsDen 0 := by
  funext ys
  rw [olsDen, olsDen, xSum_closed, xSum_closed, xxSum_closed, xxSum_closed]
  ring

/-- Translation invariance of the OLS slope itself. -/
theorem olsSlope_shift (x0 : ℚ) (ys : List ℚ) : olsSlope x0 ys = olsSlope 0 ys := by
  rw [olsSlope, olsSlope, olsNum_shift, olsDen_shift x0]

/-- The OLS slope of an affine sequence `a, a+d, a+2d, ...` of length at least 2
is exactly `d`. -/
theorem olsSlope_affine (a d : ℚ) (n : ℕ) (hn : 2 ≤ n) :
    olsSlope 0 ((List.range n).map (fun (j : ℕ) => a + d * (j : ℚ))) = d := by
  have hlen : ((List.range n).map (fun (j : ℕ) => a + d * (j : ℚ))).length = n := by
    simp
  have hden : olsDen 0 ((List.range n).map (fun (j : ℕ) => a + d * (j : ℚ))) =
      (n : ℚ) ^ 2 * ((n : ℚ) - 1) * ((n : ℚ) + 1) / 12 := by
    rw [olsDen, hlen, xSum_closed, xxSum_closed]
    ring
  have hnum : olsNum 0 ((List.range n).map (fun (j : ℕ) => a + d * (j : ℚ))) =
      d * ((n : ℚ) ^ 2 * ((n : ℚ) - 1) * ((n : ℚ) + 1) / 12) := by
    rw [olsNum, hlen, xySum_affine, xSum_closed, sum_affine]
    ring
  have hn2 : (2 : ℚ) ≤ (n : ℚ) := by exact_mod_cast hn
  have hpos : 0 < (n : ℚ) ^ 2 * ((n : ℚ) - 1) * ((n : ℚ) + 1) / 12 := by
    have h1 : (0 : ℚ) < (n : ℚ) := by linarith
    have h2 : (0 : ℚ) < (n : ℚ) - 1 := by linarith
    have h3 : (0 : ℚ) < (n : ℚ) + 1 := by linarith
    have h4 : (0 : ℚ) < (n : ℚ) ^ 2 := by positivity
    have h5 : (0 : ℚ) < (n : ℚ) ^ 2 * ((n : ℚ) - 1) * ((n : ℚ) + 1) :=
      mul_pos (mul_pos h4 h2) h3
    linarith
  rw [olsSlope, hnum, hden]
  exact mul_div_cancel_right₀ d (ne_of_gt hpos)

example : windowVals [(mkDate 1900 1 1, (1:ℚ)), (mkDate 2030 1 1, 2)] 1870 2024 = [1] := by
  decide

example : olsSlope 0 [0, (1:ℚ)/100, 2/100] = 1/100 := by
  norm_num [olsSlope, olsNum, olsDen, xySum, xSum, xxSum, List.range_succ]

example : trendCell [] 10 1880 1881 = none := by decide

/-! ### Representation of the trend matrix -/

theorem windowValsN_map_some (g : List (Int × ℚ)) (s e : Int) :
    windowValsN (g.map (fun p => (p.1, some p.2))) s e = (windowVals g s e).map some := by
  simp only [windowValsN, windowVals, List.filter_map, List.map_map]
  rfl

theorem seqOpt_map_some (l : List ℚ) : seqOpt (l.map some) = some l := by
  induction l with
  | nil => rfl
  | cons x t ih => simp [seqOpt, ih]

theorem windowValsN_cons (p : Int × Option ℚ) (t : List (Int × Option ℚ)) (s e : Int) :
    windowValsN (p :: t) s e =
      if (decide (mkDate s 1 1 ≤ p.1) && decide (p.1 ≤ mkDate e 12 31)) = true
      then p.2 :: windowValsN t s e else windowValsN t s e := by
  rw [windowValsN, windowValsN, List.filter_cons]
  split_ifs with h
  · rw [List.map_cons]
  · rfl

theorem trendCellE_map_some (g : List (Int × ℚ)) (m : ℕ) (s e : Int) :
    trendCellE (g.map (fun p => (p.1, some p.2))) m s e = Except.ok (trendCell g m s e) := by
  rw [trendCellE, trendCell, windowValsN_map_some]
  by_cases h1 : e ≤ s
  · simp [h1]
  by_cases h2 : e - s < (m : Int)
  · simp [h1, h2]
  by_cases h3 : 12 < (windowVals g s e).length
  · simp [h1, h2, h3, seqOpt_map_some]
  · simp [h1, h2, h3]

theorem calcTrendsAux_ok (g : List (Int × Option ℚ)) (m : ℕ) (ks : List (Int × Int))
    (f : Int × Int → Option ℚ)
    (h : ∀ k ∈ ks, trendCellE g m k.1 k.2 = Except.ok (f k)) :
    calcTrendsAux g m ks = ks.map (fun k => (k, f k)) := by
  induction ks with
  | nil => rfl
  | cons k ks ih =>
    have hk := h k (List.mem_cons_self k ks)
    have ht : ∀ k' ∈ ks, trendCellE g m k'.1 k'.2 = Except.ok (f k') :=
      fun k' hk' => h k' (List.mem_cons_of_mem _ hk')
    simp [calcTrendsAux, hk, ih ht]

theorem CalculateTrendsQ_eq (g : List (Int × ℚ)) (m : ℕ) :
    CalculateTrendsQ g m = (cellKeys m).map (fun k => (k, trendCell g m k.1 k.2)) := by
  rw [CalculateTrendsQ, CalculateTrends]
  exact calcTrendsAux_ok _ _ _ _ (fun k _ => trendCellE_map_some g m k.1 k.2)

theorem mem_cellKeys (m : ℕ) (s e : Int) :
    (s, e) ∈ cellKeys m ↔
      1870 ≤ s ∧ s ≤ 2024 - (m : Int) ∧ 1870 + (m : Int) ≤ e ∧ e ≤ 2024 := by
  simp only [cellKeys, List.mem_flatMap, List.mem_map, List.mem_range, Prod.mk.injEq]
  constructor
  · rintro ⟨i, hi, j, hj, hs, he⟩
    omega
  · rintro ⟨h1, h2, h3, h4⟩
    exact ⟨(s - 1870).toNat, by omega, (e - 1870 - (m : Int)).toNat, by omega, by omega, by omega⟩

theorem windowVals_gLin (s e : Int) (hs : s ≤ 1900) (he : 1900 ≤ e) :
    windowVals gLin s e = (List.range 13).map (fun (j : ℕ) => (1 / 100 : ℚ) * (j : ℚ)) := by
  rw [gLin, windowVals, List.filter_map]
  have hall : List.filter
      ((fun p : Int × ℚ => decide (mkDate s 1 1 ≤ p.1) && decide (p.1 ≤ mkDate e 12 31)) ∘
        (fun (j : ℕ) => (mkDate 1900 1 1 + (j : Int), (1 / 100 : ℚ) * (j : ℚ))))
      (List.range 13) = List.range 13 := by
    refine List.filter_eq_self.2 ?_
    intro j hj
    rw [List.mem_range] at hj
    simp only [Function.comp_apply, Bool.and_eq_true, decide_eq_true_eq, mkDate]
    omega
  rw [hall, List.map_map]
  rfl

/-- C10: the trend recorded for a window depends only on the selected subsequence of
gradient values: regressing them against the prefix index `0..n-1` (as the code does)
gives the same OLS slope as regressing them against any shifted arithmetic index
`k..k+n-1`, because the OLS slope is invariant under translation of the independent
variable. -/
theorem trend_slope_translation_invariant (g : List (Int × ℚ)) (s e : Int) (k : ℚ) :
    olsSlope k (windowVals g s e) = olsSlope 0 (windowVals g s e) :=
  olsSlope_shift k (windowVals g s e)

/-- C4: the key set of the trend matrix is exactly the cartesian product of
`startYear ∈ [1870, 2024 - minTrend]` and `endYear ∈ [1870 + minTrend, 2024]`;
in particular a pair such as `(1995, 1870)`, whose `endYear` is below
`yearStart + minTrend`, has no entry at all. -/
theorem trend_matrix_key_range (g : List (Int × ℚ)) (m : ℕ) (s e : Int) :
    (s, e) ∈ (CalculateTrendsQ g m).map Prod.fst ↔
      1870 ≤ s ∧ s ≤ 2024 - (m : Int) ∧ 1870 + (m : Int) ≤ e ∧ e ≤ 2024 := by
  rw [CalculateTrendsQ_eq, List.map_map]
  have hid : (Prod.fst ∘ fun k : Int × Int => (k, trendCell g m k.1 k.2)) = id := rfl
  rw [hid, List.map_id]
  exact mem_cellKeys m s e

/-- C3: every generated `(startYear, endYear)` pair with `startYear ≥ endYear`, or
window shorter than `minTrend`, or at most 12 selected samples, is recorded as an
explicit missing value (`none`), with no exception raised. -/
theorem trend_matrix_missing_cells (g : List (Int × ℚ)) (m : ℕ) (s e : Int)
    (hin : 1870 ≤ s ∧ s ≤ 2024 - (m : Int) ∧ 1870 + (m : Int) ≤ e ∧ e ≤ 2024)
    (hbad : e ≤ s ∨ e - s < (m : Int) ∨ (windowVals g s e).length ≤ 12) :
    ((s, e), (none : Option ℚ)) ∈ CalculateTrendsQ g m := by
  rw [CalculateTrendsQ_eq]
  refine List.mem_map.2 ⟨(s, e), (mem_cellKeys m s e).2 hin, ?_⟩
  have hnone : trendCell g m s e = none := by
    rw [trendCell]
    split_ifs with h1 h2 h3
    · rfl
    · rfl
    · rcases hbad with h | h | h
      · exact absurd h h1
      · exact absurd h h2
      · omega
    · rfl
  rw [hnone]

theorem trend_matrix_missing_cells_witness :
    ((1870 : Int) ≤ 1870 ∧ (1870 : Int) ≤ 2024 - ((154 : ℕ) : Int) ∧
      1870 + ((154 : ℕ) : Int) ≤ (2024 : Int) ∧ (2024 : Int) ≤ 2024) ∧
    (windowVals [] 1870 2024).length ≤ 12 ∧
    (((1870 : Int), (2024 : Int)), (none : Option ℚ)) ∈ CalculateTrendsQ [] 154 := by
  refine ⟨by norm_num, by decide, ?_⟩
  exact trend_matrix_missing_cells [] 154 1870 2024 (by norm_num)
    (Or.inr (Or.inr (by decide)))

/-- C1: for every generated `(startYear, endYear)` pair with `startYear < endYear`,
`endYear - startYear ≥ minTrend` and strictly more than 12 selected samples, the
recorded trend is the OLS slope of the selected gradient values against the integer
sample index, multiplied by 120; for a synthetic linear window `y = a + 0.01·j` the
recorded trend is `1.2 = 6/5`, independent of the window length. -/
theorem trend_matrix_scaled_ols_slope (g : List (Int × ℚ)) (m : ℕ) (s e : Int)
    (hin : 1870 ≤ s ∧ s ≤ 2024 - (m : Int) ∧ 1870 + (m : Int) ≤ e ∧ e ≤ 2024)
    (hlt : s < e) (hmin : (m : Int) ≤ e - s)
    (hlen : 12 < (windowVals g s e).length) :
    (((s, e), some (olsSlope 0 (windowVals g s e) * 120)) ∈ CalculateTrendsQ g m) ∧
    (∀ a : ℚ, windowVals g s e =
        (List.range (windowVals g s e).length).map (fun (j : ℕ) => a + 1 / 100 * (j : ℚ)) →
      ((s, e), some (6 / 5 : ℚ)) ∈ CalculateTrendsQ g m) := by
  have hcell : trendCell g m s e = some (olsSlope 0 (windowVals g s e) * 120) := by
    rw [trendCell, if_neg (by omega), if_neg (by omega), if_pos hlen]
  constructor
  · rw [CalculateTrendsQ_eq]
    exact List.mem_map.2 ⟨(s, e), (mem_cellKeys m s e).2 hin, by rw [hcell]⟩
  · intro a ha
    have hslope : olsSlope 0 (windowVals g s e) = 1 / 100 := by
      conv_lhs => rw [ha]
      exact olsSlope_affine a (1 / 100) (windowVals g s e).length (by omega)
    rw [CalculateTrendsQ_eq]
    refine List.mem_map.2 ⟨(s, e), (mem_cellKeys m s e).2 hin, ?_⟩
    rw [hcell, hslope]
    norm_num

theorem trend_matrix_scaled_ols_slope_witness :
    12 < (windowVals gLin 1870 2024).length ∧
    (((1870 : Int), (2024 : Int)), some (6 / 5 : ℚ)) ∈ CalculateTrendsQ gLin 154 := by
  have h1 : windowVals gLin 1870 2024 =
      (List.range 13).map (fun (j : ℕ) => (1 / 100 : ℚ) * (j : ℚ)) :=
    windowVals_gLin 1870 2024 (by norm_num) (by norm_num)
  have hlen : 12 < (windowVals gLin 1870 2024).length := by
    rw [h1]
    simp
  refine ⟨hlen, (trend_matrix_scaled_ols_slope gLin 154 1870 2024 (by norm_num)
    (by norm_num) (by norm_num) hlen).2 0 ?_⟩
  rw [h1]
  simp only [List.length_map, List.length_range]
  refine List.map_congr_left ?_
  intro j _
  rw [zero_add]

/-- C2 (amended): a failure during the fitting of one cell aborts the computation of
all remaining cells: the matrix holds exactly the cells that precede the first
failing cell in iteration order; the failing cell and every later cell are absent. -/
theorem trend_loop_stops_at_first_failure (g : List (Int × Option ℚ)) (m : ℕ) :
    CalculateTrends g m =
      ((cellKeys m).takeWhile (fun k => exceptOk (trendCellE g m k.1 k.2))).map
        (fun k => (k, exceptVal (trendCellE g m k.1 k.2))) := by
  rw [CalculateTrends]
  generalize cellKeys m = ks
  induction ks with
  | nil => rfl
  | cons k ks ih =>
    cases h : trendCellE g m k.1 k.2 with
    | ok v => simp [calcTrendsAux, h, exceptOk, exceptVal, ih, List.takeWhile_cons]
    | error u => simp [calcTrendsAux, h, exceptOk, List.takeWhile_cons]

/-- C2 (counterexample): on `gNaN` with `minTrend = 153` the very first cell
`(1870, 2023)` fails (its window contains the NaN sample), and the whole matrix comes
out empty, although the later generated cell `(1871, 2024)` would evaluate
successfully on its own. -/
theorem trend_loop_abort_counterexample :
    CalculateTrends gNaN 153 = [] ∧
    ((1871 : Int), (2024 : Int)) ∈ cellKeys 153 ∧
    trendCellE gNaN 153 1871 2024 = Except.ok (some (6 / 5 : ℚ)) := by
  refine ⟨by decide, by decide, ?_⟩
  have hw : windowValsN gNaN 1871 2024 = (windowVals gLin 1871 2024).map some := by
    rw [gNaN, windowValsN_cons, if_neg (by decide), windowValsN_map_some]
  have hwv : windowValsN gNaN 1871 2024 =
      ((List.range 13).map (fun (j : ℕ) => (1 / 100 : ℚ) * (j : ℚ))).map some := by
    rw [hw, windowVals_gLin 1871 2024 (by norm_num) (by norm_num)]
  rw [trendCellE, hwv, if_neg (by decide), if_neg (by decide), if_pos (by simp),
    seqOpt_map_some]
  have hsl : olsSlope 0 ((List.range 13).map (fun (j : ℕ) => (1 / 100 : ℚ) * (j : ℚ))) =
      1 / 100 := by
    have hcongr : (List.range 13).map (fun (j : ℕ) => (1 / 100 : ℚ) * (j : ℚ)) =
        (List.range 13).map (fun (j : ℕ) => 0 + (1 / 100 : ℚ) * (j : ℚ)) :=
      List.map_congr_left (fun j _ => by rw [zero_add])
    rw [hcongr]
    exact olsSlope_affine 0 (1 / 100) 13 (by norm_num)
  show Except.ok (some (olsSlope 0
      ((List.range 13).map (fun (j : ℕ) => (1 / 100 : ℚ) * (j : ℚ))) * 120)) =
    Except.ok (some (6 / 5 : ℚ))
  rw [hsl]
  norm_num

/-! ### ConcatModels: coverage validation -/

theorem ConcatModels_eq_of_sort (fragments : List (List (Int × ℚ))) (p : Int × ℚ)
    (t : List (Int × ℚ)) (hS : sortByTime fragments.flatten = p :: t) :
    ConcatModels fragments =
      if p.1 ≤ mkDate 1850 1 31 ∧ mkDate 2014 12 1 ≤ ((p :: t).getLast (by simp)).1 then
        Except.ok (p :: t)
      else Except.error "Concatenated models do not span full period" := by
  unfold ConcatModels
  rw [hS, List.getLast?_eq_getLast (p :: t) (by simp)]
  rfl

/-- C7: `ConcatModels` returns the time-ascending-sorted concatenation of its
fragments if and only if that sorted result's first timestamp is at or before
1850-01-31 and its last timestamp is at or after 2014-12-01; otherwise it fails with
the coverage error instead of returning a partial series. The result is always a
permutation of the concatenated input, sorted ascending by time. -/
theorem ConcatModels_coverage (fragments : List (List (Int × ℚ)))
    (h : fragments.flatten ≠ []) :
    ∃ f l, (sortByTime fragments.flatten).head? = some f ∧
      (sortByTime fragments.flatten).getLast? = some l ∧
      (ConcatModels fragments = Except.ok (sortByTime fragments.flatten) ↔
        (f.1 ≤ mkDate 1850 1 31 ∧ mkDate 2014 12 1 ≤ l.1)) ∧
      (¬(f.1 ≤ mkDate 1850 1 31 ∧ mkDate 2014 12 1 ≤ l.1) →
        ConcatModels fragments =
          Except.error "Concatenated models do not span full period") ∧
      (∀ r, ConcatModels fragments = Except.ok r → r = sortByTime fragments.flatten) ∧
      (sortByTime fragments.flatten).Perm fragments.flatten ∧
      List.Sorted (fun p q : Int × ℚ => p.1 ≤ q.1) (sortByTime fragments.flatten) := by
  have hperm : (sortByTime fragments.flatten).Perm fragments.flatten :=
    List.perm_insertionSort _ _
  have hsorted : List.Sorted (fun p q : Int × ℚ => p.1 ≤ q.1)
      (sortByTime fragments.flatten) := by
    haveI : IsTotal (Int × ℚ) (fun p q : Int × ℚ => p.1 ≤ q.1) :=
      ⟨fun a b => le_total a.1 b.1⟩
    haveI : IsTrans (Int × ℚ) (fun p q : Int × ℚ => p.1 ≤ q.1) :=
      ⟨fun _ _ _ hab hbc => le_trans hab hbc⟩
    exact List.sorted_insertionSort _ _
  have hne : sortByTime fragments.flatten ≠ [] := by
    intro h0
    apply h
    have h2 : fragments.flatten.Perm ([] : List (Int × ℚ)) := by
      rw [← h0]
      exact hperm.symm
    exact List.Perm.eq_nil h2
  obtain ⟨p, t, hS⟩ : ∃ p t, sortByTime fragments.flatten = p :: t := by
    cases hE : sortByTime fragments.flatten with
    | nil => exact absurd hE hne
    | cons p t => exact ⟨p, t, rfl⟩
  have hCM := ConcatModels_eq_of_sort fragments p t hS
  refine ⟨p, (p :: t).getLast (by simp), by rw [hS]; rfl,
    by rw [hS]; exact List.getLast?_eq_getLast _ _, ?_, ?_, ?_, hperm, hsorted⟩
  · rw [hCM, hS]
    by_cases hcov :
        p.1 ≤ mkDate 1850 1 31 ∧ mkDate 2014 12 1 ≤ ((p :: t).getLast (by simp)).1
    · rw [if_pos hcov]
      exact ⟨fun _ => hcov, fun _ => rfl⟩
    · rw [if_neg hcov]
      exact ⟨fun hok => absurd hok (by simp), fun hc => absurd hc hcov⟩
  · intro hcov
    rw [hCM, if_neg hcov]
  · intro r hr
    rw [hCM] at hr
    by_cases hcov :
        p.1 ≤ mkDate 1850 1 31 ∧ mkDate 2014 12 1 ≤ ((p :: t).getLast (by simp)).1
    · rw [if_pos hcov] at hr
      cases hr
      exact hS.symm
    · rw [if_neg hcov] at hr
      cases hr

theorem ConcatModels_coverage_witness :
    ([[(mkDate 1850 1 15, (1 : ℚ)), (mkDate 2014 12 16, 2)]] :
        List (List (Int × ℚ))).flatten ≠ [] ∧
    ConcatModels [[(mkDate 1850 1 15, (1 : ℚ)), (mkDate 2014 12 16, 2)]] =
      Except.ok (sortByTime
        ([[(mkDate 1850 1 15, (1 : ℚ)), (mkDate 2014 12 16, 2)]] :
          List (List (Int × ℚ))).flatten) := by
  obtain ⟨f, l, hf, hl, hiff, -, -, -, -⟩ :=
    ConcatModels_coverage [[(mkDate 1850 1 15, (1 : ℚ)), (mkDate 2014 12 16, 2)]]
      (by decide)
  have hsort : sortByTime
      ([[(mkDate 1850 1 15, (1 : ℚ)), (mkDate 2014 12 16, 2)]] :
        List (List (Int × ℚ))).flatten =
      [(mkDate 1850 1 15, (1 : ℚ)), (mkDate 2014 12 16, 2)] := by decide
  rw [hsort] at hf hl
  have hf2 : f = (mkDate 1850 1 15, (1 : ℚ)) := by
    simpa using hf.symm
  have hl2 : l = (mkDate 2014 12 16, (2 : ℚ)) := by
    simpa using hl.symm
  refine ⟨by decide, hiff.2 ?_⟩
  rw [hf2, hl2]
  exact ⟨by decide, by decide⟩

/-! ### ExtendPeriod: helper lemmas -/

theorem zip_range_get {α : Type _} {l : List α} {i : ℕ} {b : α}
    (hmem : (i, b) ∈ (List.range l.length).zip l) : l.get? i = some b := by
  obtain ⟨j, hj⟩ := List.mem_iff_get?.1 hmem
  rw [List.get?_zip_eq_some] at hj
  obtain ⟨h1, h2⟩ := hj
  have hjl : j < l.length := by
    by_contra hge
    push_neg at hge
    rw [List.get?_eq_getElem?, List.getElem?_eq_none (by simpa using hge)] at h2
    cases h2
  rw [List.get?_eq_getElem?, List.getElem?_range (by simpa using hjl)] at h1
  cases h1
  exact h2

theorem mapOpt_length {α β : Type _} (f : α → Option β) :
    ∀ {l : List α} {ys : List β}, mapOpt f l = some ys → ys.length = l.length := by
  intro l
  induction l with
  | nil =>
    intro ys h
    rw [mapOpt] at h
    cases h
    rfl
  | cons a t ih =>
    intro ys h
    rw [mapOpt] at h
    cases hf : f a with
    | none => rw [hf] at h; cases h
    | some b =>
      cases hm : mapOpt f t with
      | none => rw [hf, hm] at h; cases h
      | some zs =>
        rw [hf, hm] at h
        simp only [Option.some_bind, Option.map_some'] at h
        cases h
        simp [ih hm]

theorem mapOpt_get? {α β : Type _} (f : α → Option β) :
    ∀ {l : List α} {ys : List β}, mapOpt f l = some ys →
      ∀ {i : ℕ} {b : β}, ys.get? i = some b → ∃ a, l.get? i = some a ∧ f a = some b := by
  intro l
  induction l with
  | nil =>
    intro ys h i b hb
    rw [mapOpt] at h
    cases h
    cases hb
  | cons a t ih =>
    intro ys h i b hb
    rw [mapOpt] at h
    cases hf : f a with
    | none => rw [hf] at h; cases h
    | some b0 =>
      cases hm : mapOpt f t with
      | none => rw [hf, hm] at h; cases h
      | some zs =>
        rw [hf, hm] at h
        simp only [Option.some_bind, Option.map_some'] at h
        cases h
        cases i with
        | zero =>
          rw [List.get?_cons_zero] at hb
          cases hb
          exact ⟨a, rfl, hf⟩
        | succ i =>
          rw [List.get?_cons_succ] at hb
          obtain ⟨a', ha', hfa'⟩ := ih hm hb
          exact ⟨a', by simpa using ha', hfa'⟩

theorem lookup_mem {α β : Type _} [BEq α] :
    ∀ {l : List (α × β)} {k : α} {v : β}, List.lookup k l = some v → ∃ k', (k', v) ∈ l := by
  intro l
  induction l with
  | nil => intro k v h; cases h
  | cons kv t ih =>
    intro k v h
    obtain ⟨k1, v1⟩ := kv
    rw [List.lookup] at h
    cases hb : (k == k1) with
    | true =>
      rw [hb] at h
      cases h
      exact ⟨k1, List.mem_cons_self _ _⟩
    | false =>
      rw [hb] at h
      obtain ⟨k', hk'⟩ := ih h
      exact ⟨k', List.mem_cons_of_mem _ hk'⟩

theorem insertFlat_mem {m : List (String × List DataSet)} {k : String} {v : List DataSet}
    {kv : String × List DataSet} (h : kv ∈ insertFlat m k v) : kv ∈ m ∨ kv.2 = v := by
  rw [insertFlat] at h
  split_ifs at h with hany
  · obtain ⟨kv', hkv', heq⟩ := List.mem_map.1 h
    by_cases hb : (kv'.1 == k) = true
    · right
      rw [← heq, if_pos hb]
    · left
      rw [← heq, if_neg hb]
      exact hkv'
  · rcases List.mem_append.1 h with h1 | h1
    · exact Or.inl h1
    · right
      rw [List.mem_singleton.1 h1]

theorem flattenEntry_mem {acc : List (String × List DataSet)}
    {kv0 kv : String × List DataSet} (h : kv ∈ flattenEntry acc kv0) :
    kv ∈ acc ∨ ∀ ds ∈ kv.2, ds ∈ kv0.2 := by
  rw [flattenEntry] at h
  split_ifs at h with hlen
  · have main : ∀ (pairs : List (DataSet × ℕ)) (acc2 : List (String × List DataSet)),
        (∀ p ∈ pairs, p.1 ∈ kv0.2) →
        ∀ kv' ∈ pairs.foldl
          (fun a p => insertFlat a (kv0.1 ++ "_" ++ toString p.2) [p.1]) acc2,
          kv' ∈ acc2 ∨ ∀ ds ∈ kv'.2, ds ∈ kv0.2 := by
      intro pairs
      induction pairs with
      | nil => intro acc2 _ kv' h'; exact Or.inl h'
      | cons p ps ih =>
        intro acc2 hp kv' h'
        rw [List.foldl_cons] at h'
        rcases ih _ (fun q hq => hp q (List.mem_cons_of_mem _ hq)) kv' h' with h2 | h2
        · rcases insertFlat_mem h2 with h3 | h3
          · exact Or.inl h3
          · refine Or.inr ?_
            intro ds hds
            rw [h3, List.mem_singleton] at hds
            rw [hds]
            exact hp p (List.mem_cons_self _ _)
        · exact Or.inr h2
    exact main _ acc (fun p hp => (List.of_mem_zip hp).1) kv h
  · rcases insertFlat_mem h with h1 | h1
    · exact Or.inl h1
    · refine Or.inr ?_
      intro ds hds
      rw [h1] at hds
      exact hds

theorem flattenRegistry_mem {registry : List (String × List DataSet)}
    {kv : String × List DataSet} (h : kv ∈ flattenRegistry registry) :
    ∀ ds ∈ kv.2, ∃ kvr ∈ registry, ds ∈ kvr.2 := by
  rw [flattenRegistry] at h
  have main : ∀ (l acc : List (String × List DataSet)),
      (∀ kv' ∈ acc, ∀ ds ∈ kv'.2, ∃ kvr ∈ registry, ds ∈ kvr.2) →
      (∀ kvr ∈ l, kvr ∈ registry) →
      ∀ kv' ∈ l.foldl flattenEntry acc, ∀ ds ∈ kv'.2, ∃ kvr ∈ registry, ds ∈ kvr.2 := by
    intro l
    induction l with
    | nil => intro acc hacc _ kv' h'; exact hacc kv' h'
    | cons kv0 l' ih =>
      intro acc hacc hl kv' h'
      rw [List.foldl_cons] at h'
      refine ih _ ?_ (fun q hq => hl q (List.mem_cons_of_mem _ hq)) kv' h'
      intro kv2 hkv2 ds hds
      rcases flattenEntry_mem hkv2 with h2 | h2
      · exact hacc kv2 h2 ds hds
      · exact ⟨kv0, hl kv0 (List.mem_cons_self _ _), h2 ds hds⟩
  exact main registry [] (by intro kv' h'; cases h') (fun _ hq => hq) kv h

theorem fallbackSelect_spec (hist : DataSet) (registry : List (String × List DataSet))
    (r : ℕ) (k : String) (cands : List DataSet)
    (h : fallbackSelect hist registry r = some (k, cands)) :
    leadToken k = some hist.sourceId ∧ ∃ k', (k', cands) ∈ flattenRegistry registry := by
  rw [fallbackSelect] at h
  cases hm : mapOpt (fun kv => leadToken kv.1) (flattenRegistry registry) with
  | none => rw [hm] at h; cases h
  | some sources =>
    rw [hm] at h
    simp only [Option.some_bind] at h
    cases hr : ((((List.range (flattenRegistry registry).length).zip
        (sources.map (fun sid => sid == hist.sourceId))).filter
          (fun p => p.2)).map Prod.fst).get? r with
    | none => rw [hr] at h; cases h
    | some i =>
      rw [hr] at h
      simp only [Option.some_bind] at h
      cases hfi : (flattenRegistry registry).get? i with
      | none => rw [hfi] at h; cases h
      | some kv =>
        rw [hfi] at h
        simp only [Option.some_bind] at h
        cases hlk : List.lookup kv.1 (flattenRegistry registry) with
        | none => rw [hlk] at h; cases h
        | some cands' =>
          rw [hlk] at h
          simp only [Option.map_some'] at h
          cases h
          constructor
          · have himem : i ∈ ((((List.range (flattenRegistry registry).length).zip
                (sources.map (fun sid => sid == hist.sourceId))).filter
                  (fun p => p.2)).map Prod.fst) := List.get?_mem hr
            obtain ⟨p, hpfil, hpfst⟩ := List.mem_map.1 himem
            have hpzip := (List.mem_filter.1 hpfil).1
            have hptrue : p.2 = true := by
              simpa using (List.mem_filter.1 hpfil).2
            have hp : p = (i, true) := by
              obtain ⟨p1, p2⟩ := p
              simp only at hpfst hptrue
              rw [hpfst, hptrue]
            rw [hp] at hpzip
            have hlenmask : (sources.map (fun sid => sid == hist.sourceId)).length =
                (flattenRegistry registry).length := by
              rw [List.length_map, mapOpt_length _ hm]
            rw [← hlenmask] at hpzip
            have hmask := zip_range_get hpzip
            rw [List.get?_eq_getElem?, List.getElem?_map, ← List.get?_eq_getElem?] at hmask
            cases hs0 : sources.get? i with
            | none => rw [hs0] at hmask; cases hmask
            | some s0 =>
              rw [hs0] at hmask
              simp only [Option.map_some'] at hmask
              have hs0eq : s0 = hist.sourceId := by
                have : (s0 == hist.sourceId) = true := by
                  simpa using hmask
                exact eq_of_beq this
              obtain ⟨kv', hkv', hlead⟩ := mapOpt_get? _ hm hs0
              rw [hfi] at hkv'
              cases hkv'
              rw [hlead, hs0eq]
          · obtain ⟨k', hk'⟩ := lookup_mem hlk
            exact ⟨k', hk'⟩

theorem ExtendPeriod_eq_exact (key : String) (hist : DataSet)
    (registry : List (String × List DataSet)) (r : ℕ) (cands : List DataSet)
    (hlk : List.lookup key registry = some cands) :
    ExtendPeriod key hist registry r =
      Option.map (fun ds => hist.times ++ ds.times) cands.head? := by
  rw [ExtendPeriod, hlk]

theorem ExtendPeriod_eq_fallback (key : String) (hist : DataSet)
    (registry : List (String × List DataSet)) (r : ℕ)
    (hlk : List.lookup key registry = none) :
    ExtendPeriod key hist registry r =
      (fallbackSelect hist registry r).bind
        (fun kc => Option.map (fun ds => hist.times ++ ds.times) kc.2.head?) := by
  rw [ExtendPeriod, hlk]

theorem ExtendPeriod_result (key : String) (hist : DataSet)
    (registry : List (String × List DataSet)) (r : ℕ) (result : List Int)
    (hok : ExtendPeriod key hist registry r = some result) :
    ∃ ds, (∃ kvr ∈ registry, ds ∈ kvr.2) ∧ result = hist.times ++ ds.times := by
  cases hlk : List.lookup key registry with
  | some cands =>
    rw [ExtendPeriod_eq_exact key hist registry r cands hlk] at hok
    cases hh : cands.head? with
    | none => rw [hh] at hok; cases hok
    | some ds =>
      rw [hh] at hok
      simp only [Option.map_some'] at hok
      cases hok
      obtain ⟨k', hk'⟩ := lookup_mem hlk
      exact ⟨ds, ⟨(k', cands), hk', List.mem_of_mem_head? (Option.mem_def.2 hh)⟩, rfl⟩
  | none =>
    rw [ExtendPeriod_eq_fallback key hist registry r hlk] at hok
    cases hfs : fallbackSelect hist registry r with
    | none => rw [hfs] at hok; cases hok
    | some kc =>
      rw [hfs] at hok
      simp only [Option.some_bind] at hok
      obtain ⟨k, cands⟩ := kc
      cases hh : cands.head? with
      | none => rw [hh] at hok; cases hok
      | some ds =>
        rw [hh] at hok
        simp only [Option.map_some'] at hok
        cases hok
        obtain ⟨-, k', hk'⟩ := fallbackSelect_spec hist registry r k cands hfs
        exact ⟨ds, flattenRegistry_mem hk' ds (List.mem_of_mem_head? (Option.mem_def.2 hh)),
          rfl⟩

/-- C5: when the historical run's lineage key is present in the scenario registry,
`ExtendPeriod` deterministically concatenates the historical run with the first
candidate stored under that key; the randomized fallback is never consulted, so the
output does not depend on the random draw `r`. -/
theorem ExtendPeriod_exact_match (key : String) (hist : DataSet)
    (registry : List (String × List DataSet)) (cands : List DataSet) (ds : DataSet)
    (r : ℕ) (hk : List.lookup key registry = some cands) (hh : cands.head? = some ds) :
    ExtendPeriod key hist registry r = some (hist.times ++ ds.times) := by
  rw [ExtendPeriod_eq_exact key hist registry r cands hk, hh]
  rfl

theorem ExtendPeriod_exact_match_witness :
    List.lookup "ACC_r1" regExact =
      some [⟨[20150116, 20170116], "ACC", "r9"⟩, ⟨[0], "ACC", "r8"⟩] ∧
    ExtendPeriod "ACC_r1" histW regExact 5 =
      some [20120116, 20140116, 20150116, 20170116] ∧
    ExtendPeriod "ACC_r1" histW regExact 99 =
      some [20120116, 20140116, 20150116, 20170116] := by
  have h5 := ExtendPeriod_exact_match "ACC_r1" histW regExact
    [⟨[20150116, 20170116], "ACC", "r9"⟩, ⟨[0], "ACC", "r8"⟩]
    ⟨[20150116, 20170116], "ACC", "r9"⟩ 5 (by decide) (by decide)
  have h99 := ExtendPeriod_exact_match "ACC_r1" histW regExact
    [⟨[20150116, 20170116], "ACC", "r9"⟩, ⟨[0], "ACC", "r8"⟩]
    ⟨[20150116, 20170116], "ACC", "r9"⟩ 99 (by decide) (by decide)
  refine ⟨by decide, ?_, ?_⟩
  · rw [h5]; decide
  · rw [h99]; decide

/-- C6: when no exact lineage-key match exists, every successful fallback selection
picks a flattened registry candidate whose key's leading sourceID token equals the
historical run's `source_id`, whatever random index was drawn. -/
theorem ExtendPeriod_fallback_source_match (key : String) (hist : DataSet)
    (registry : List (String × List DataSet)) (r : ℕ) (result : List Int)
    (hnokey : List.lookup key registry = none)
    (hok : ExtendPeriod key hist registry r = some result) :
    ∃ k cands, fallbackSelect hist registry r = some (k, cands) ∧
      leadToken k = some hist.sourceId := by
  rw [ExtendPeriod_eq_fallback key hist registry r hnokey] at hok
  cases hfs : fallbackSelect hist registry r with
  | none => rw [hfs] at hok; cases hok
  | some kc =>
    obtain ⟨k, cands⟩ := kc
    exact ⟨k, cands, rfl, (fallbackSelect_spec hist registry r k cands hfs).1⟩

theorem ExtendPeriod_fallback_source_match_witness :
    List.lookup "ACC_r1" regFallback = none ∧
    ExtendPeriod "ACC_r1" histW regFallback 0 =
      some [20120116, 20140116, 20150116, 20170116] ∧
    (∃ k cands, fallbackSelect histW regFallback 0 = some (k, cands) ∧
      leadToken k = some histW.sourceId) := by
  refine ⟨by decide, by decide, ?_⟩
  exact ExtendPeriod_fallback_source_match "ACC_r1" histW regFallback 0
    [20120116, 20140116, 20150116, 20170116] (by decide) (by decide)

/-- C8 (counterexample): `ExtendPeriod` concatenates without sorting or
deduplication, so a historical run that overlaps its scenario continuation yields a
merged time axis that is not strictly increasing. -/
theorem ExtendPeriod_unsorted_counterexample :
    ExtendPeriod "ACC_r1" histOverlap
      [("ACC_r1", [⟨[20150115, 20160115], "ACC", "r9"⟩])] 0 =
      some [20140116, 20150116, 20150115, 20160115] ∧
    ¬ List.Chain' (fun a b : Int => a < b) [20140116, 20150116, 20150115, 20160115] := by
  constructor
  · decide
  · simp [List.chain'_cons]

/-- C8 (amended): the resolver returns the plain concatenation of the historical and
chosen scenario time axes, in that order and unsorted; the merged axis is strictly
increasing whenever both inputs are strictly increasing and every historical
timestamp precedes every timestamp of every registry candidate. -/
theorem ExtendPeriod_sorted_when_disjoint (key : String) (hist : DataSet)
    (registry : List (String × List DataSet)) (r : ℕ) (result : List Int)
    (hh : List.Chain' (fun a b : Int => a < b) hist.times)
    (hreg : ∀ kvr ∈ registry, ∀ ds ∈ kvr.2,
      List.Chain' (fun a b : Int => a < b) ds.times ∧
      ∀ t1 ∈ hist.times, ∀ t2 ∈ ds.times, t1 < t2)
    (hok : ExtendPeriod key hist registry r = some result) :
    List.Chain' (fun a b : Int => a < b) result := by
  obtain ⟨ds, ⟨kvr, hkvr, hds⟩, rfl⟩ :=
    ExtendPeriod_result key hist registry r result hok
  obtain ⟨hchain, hlt⟩ := hreg kvr hkvr ds hds
  rw [List.chain'_append]
  exact ⟨hh, hchain, fun x hx y hy =>
    hlt x (List.mem_of_mem_getLast? hx) y (List.mem_of_mem_head? hy)⟩

theorem ExtendPeriod_sorted_when_disjoint_witness :
    List.Chain' (fun a b : Int => a < b) (⟨[1, 2], "S", "r"⟩ : DataSet).times ∧
    ExtendPeriod "K" ⟨[1, 2], "S", "r"⟩ [("K", [⟨[3, 4], "S", "r2"⟩])] 0 =
      some [1, 2, 3, 4] ∧
    List.Chain' (fun a b : Int => a < b) [1, 2, 3, 4] := by
  refine ⟨by simp [List.chain'_cons], by decide, ?_⟩
  refine ExtendPeriod_sorted_when_disjoint "K" ⟨[1, 2], "S", "r"⟩
    [("K", [⟨[3, 4], "S", "r2"⟩])] 0 [1, 2, 3, 4] (by simp [List.chain'_cons]) ?_ (by decide)
  intro kvr hkvr ds hds
  rw [List.mem_singleton] at hkvr
  rw [hkvr] at hds
  rw [List.mem_singleton.1 hds]
  refine ⟨by simp [List.chain'_cons], ?_⟩
  intro t1 ht1 t2 ht2
  simp only [List.mem_cons, List.mem_singleton, List.not_mem_nil, or_false] at ht1 ht2
  rcases ht1 with rfl | rfl <;> rcases ht2 with rfl | rfl <;> norm_num

/-! ### Regional box averaging -/

theorem sum_of_const (row : List ℝ) (c : ℝ) (h : ∀ x ∈ row, x = c) :
    row.sum = (row.length : ℝ) * c := by
  induction row with
  | nil => simp
  | cons x t ih =>
    rw [List.sum_cons, h x (List.mem_cons_self _ _),
      ih (fun y hy => h y (List.mem_cons_of_mem _ hy)), List.length_cons]
    push_cast
    ring

theorem weightedNum_const (ws : List ℝ) (grid : List (List ℝ)) (c : ℝ)
    (h : ∀ row ∈ grid, ∀ x ∈ row, x = c) :
    (List.zipWith (fun w row => (row.map (fun x => w * x)).sum) ws grid).sum =
      c * (List.zipWith (fun w row => w * (row.length : ℝ)) ws grid).sum := by
  induction ws generalizing grid with
  | nil => simp
  | cons w ws ih =>
    cases grid with
    | nil => simp
    | cons row grid' =>
      simp only [List.zipWith_cons_cons, List.sum_cons]
      have hmul : (row.map (fun x => w * x)).sum = w * row.sum := by
        have := List.sum_map_mul_left row (fun x => x) w
        simpa using this
      rw [hmul, sum_of_const row c (h row (List.mem_cons_self _ _)),
        ih _ (fun r hr => h r (List.mem_cons_of_mem _ hr))]
      ring

theorem cos_lat_pos {φ : ℝ} (h1 : -3 ≤ φ) (h2 : φ ≤ 3) :
    0 < Real.cos (φ * Real.pi / 180) := by
  have hpi := Real.pi_pos
  apply Real.cos_pos_of_mem_Ioo
  constructor
  · have hm : (-3) * Real.pi ≤ φ * Real.pi :=
      mul_le_mul_of_nonneg_right h1 (le_of_lt hpi)
    linarith
  · have hm : φ * Real.pi ≤ 3 * Real.pi :=
      mul_le_mul_of_nonneg_right h2 (le_of_lt hpi)
    linarith

theorem weightedDen_nonneg (lats : List ℝ) (grid : List (List ℝ))
    (hlat : ∀ φ ∈ lats, -3 ≤ φ ∧ φ ≤ 3) :
    0 ≤ (List.zipWith (fun w row => w * (row.length : ℝ)) (boxWeights lats) grid).sum := by
  induction lats generalizing grid with
  | nil => simp [boxWeights]
  | cons φ lats' ih =>
    cases grid with
    | nil => simp [boxWeights]
    | cons row grid' =>
      have hφ := hlat φ (List.mem_cons_self _ _)
      simp only [boxWeights, List.map_cons, List.zipWith_cons_cons, List.sum_cons]
      have h1 : 0 ≤ Real.cos (φ * Real.pi / 180) * (row.length : ℝ) :=
        mul_nonneg (le_of_lt (cos_lat_pos hφ.1 hφ.2)) (Nat.cast_nonneg _)
      have h2 := ih grid' (fun ψ hψ => hlat ψ (List.mem_cons_of_mem _ hψ))
      rw [boxWeights] at h2
      linarith

theorem weightedDen_pos (lats : List ℝ) (grid : List (List ℝ))
    (hlen : lats.length = grid.length) (hne : lats ≠ [])
    (hlat : ∀ φ ∈ lats, -3 ≤ φ ∧ φ ≤ 3) (hrows : ∀ row ∈ grid, row ≠ []) :
    0 < (List.zipWith (fun w row => w * (row.length : ℝ)) (boxWeights lats) grid).sum := by
  cases lats with
  | nil => exact absurd rfl hne
  | cons φ lats' =>
    cases grid with
    | nil => cases hlen
    | cons row grid' =>
      have hφ := hlat φ (List.mem_cons_self _ _)
      simp only [boxWeights, List.map_cons, List.zipWith_cons_cons, List.sum_cons]
      have hrow : 0 < (row.length : ℝ) := by
        have := List.length_pos.2 (hrows row (List.mem_cons_self _ _))
        exact_mod_cast this
      have h1 : 0 < Real.cos (φ * Real.pi / 180) * (row.length : ℝ) :=
        mul_pos (cos_lat_pos hφ.1 hφ.2) hrow
      have h2 := weightedDen_nonneg lats' grid'
        (fun ψ hψ => hlat ψ (List.mem_cons_of_mem _ hψ))
      rw [boxWeights] at h2
      linarith

theorem weightedBoxMean_const (c : ℝ) (lats : List ℝ) (grid : List (List ℝ))
    (hlen : lats.length = grid.length) (hne : lats ≠ [])
    (hlat : ∀ φ ∈ lats, -3 ≤ φ ∧ φ ≤ 3) (hrows : ∀ row ∈ grid, row ≠ [])
    (hconst : ∀ row ∈ grid, ∀ x ∈ row, x = c) :
    weightedBoxMean lats grid = c := by
  rw [weightedBoxMean, weightedNum_const (boxWeights lats) grid c hconst]
  exact mul_div_cancel_right₀ c
    (ne_of_gt (weightedDen_pos lats grid hlen hne hlat hrows))

/-- C9: for a field that is constant with value `c` over a box, the cosine-latitude
area-weighted box mean equals `c` at every time step, whatever the box size, because
the weighted mean is `Σ(w·x)/Σw`; consequently the gradient of a field constant in
space is zero at every time step. -/
theorem regional_average_weighted_mean_identity (c : ℝ) (lats : List ℝ)
    (grid : List (List ℝ)) (hlen : lats.length = grid.length) (hne : lats ≠ [])
    (hlat : ∀ φ ∈ lats, -3 ≤ φ ∧ φ ≤ 3) (hrows : ∀ row ∈ grid, row ≠ [])
    (hconst : ∀ row ∈ grid, ∀ x ∈ row, x = c) :
    weightedBoxMean lats grid = c ∧
    (∀ (lats2 : List ℝ) (grid2 : List (List ℝ)),
      lats2.length = grid2.length → lats2 ≠ [] →
      (∀ φ ∈ lats2, -3 ≤ φ ∧ φ ≤ 3) → (∀ row ∈ grid2, row ≠ []) →
      (∀ row ∈ grid2, ∀ x ∈ row, x = c) →
      CalculateGradient lats grid lats2 grid2 = 0) := by
  refine ⟨weightedBoxMean_const c lats grid hlen hne hlat hrows hconst, ?_⟩
  intro lats2 grid2 hlen2 hne2 hlat2 hrows2 hconst2
  rw [CalculateGradient, weightedBoxMean_const c lats grid hlen hne hlat hrows hconst,
    weightedBoxMean_const c lats2 grid2 hlen2 hne2 hlat2 hrows2 hconst2]
  ring

theorem regional_average_weighted_mean_identity_witness :
    weightedBoxMean [(0 : ℝ)] [[5, 5]] = 5 ∧
    CalculateGradient [(0 : ℝ)] [[5, 5]] [(0 : ℝ)] [[(5 : ℝ)]] = 0 := by
  have hlat : ∀ φ ∈ [(0 : ℝ)], -3 ≤ φ ∧ φ ≤ 3 := by
    intro φ hφ
    rw [List.mem_singleton] at hφ
    subst hφ
    norm_num
  have hconst : ∀ row ∈ [[(5 : ℝ), 5]], ∀ x ∈ row, x = 5 := by
    intro row hrow
    rw [List.mem_singleton] at hrow
    subst hrow
    intro x hx
    rcases List.mem_cons.1 hx with rfl | hx2
    · rfl
    · rw [List.mem_singleton] at hx2
      exact hx2
  have hconst2 : ∀ row ∈ [[(5 : ℝ)]], ∀ x ∈ row, x = 5 := by
    intro row hrow
    rw [List.mem_singleton] at hrow
    subst hrow
    intro x hx
    rw [List.mem_singleton] at hx
    exact hx
  have h := regional_average_weighted_mean_identity 5 [(0 : ℝ)] [[5, 5]]
    (by simp) (by simp) hlat (by simp) hconst
  exact ⟨h.1, h.2 [(0 : ℝ)] [[(5 : ℝ)]] (by simp) (by simp) hlat (by simp) hconst2⟩
